import Mathlib

/-!
Shallow embedding of the `lipy-dexdump` dex / AXML parsing core
(`src/linkedin/dexdump/__init__.py` and `src/linkedin/dexdump/parsing.py`).

Byte streams are modelled as `List Nat` (each element a byte value `< 256`)
together with explicit positions; Python exceptions are modelled with
`Except String`; Python's mutation of lists is modelled by explicit state
passing (functions return the updated list).
-/

deriving instance DecidableEq for Except

/-- Python `needle in haystack` on strings: substring test. -/
def pyInStr (needle haystack : String) : Bool :=
  haystack.data.tails.any (fun t => needle.data.isPrefixOf t)

/-- Latin-1 decoding of a byte list: each byte becomes the character with the
same code point (`bytes.decode('latin-1')`). -/
def latin1Str (bs : List Nat) : String :=
  String.mk (bs.map Char.ofNat)

/-! ## ByteStream (`__init__.py`) -/

/-- The loop of `ByteStream.read_leb128`: `result` and `shift` are the Python
locals.  `read_byte` past end-of-file raises (IndexError in Python), modelled
as an error; after five continuation bytes `shift` reaches 35 and the code
raises `Exception("LEB128 sequence invalid")`. -/
def readLeb128Loop : List Nat → Nat → Nat → Except String (Nat × List Nat)
  | [], _, _ => .error "EOF"
  | b :: rest, result, shift =>
    let result := result ||| ((b &&& 0x7f) <<< shift)
    if b &&& 0x80 = 0 then .ok (result, rest)
    else if shift + 7 ≥ 35 then .error "LEB128 sequence invalid"
    else readLeb128Loop rest result (shift + 7)

/-- `ByteStream.read_leb128`, starting from the bytes at the current position;
returns the decoded value and the remaining bytes. -/
def readLeb128 (bytes : List Nat) : Except String (Nat × List Nat) :=
  readLeb128Loop bytes 0 0

/-- The chunked loop of `ByteStream.read_string`: reads up to 128 bytes at a
time, keeps the part of each chunk before the first NUL, and continues with the
next chunk only when a full 128-byte chunk contained no NUL.  Returns the bytes
making up the result string. -/
def readStringLoop (data : List Nat) : List Nat :=
  if (data.take 128).isEmpty then []
  else
    let delta := (data.take 128).takeWhile (fun b => b ≠ 0)
    if (data.take 128).length = 128 ∧ delta.length = 128 then
      delta ++ readStringLoop (data.drop 128)
    else delta
termination_by data.length
decreasing_by
  simp_wf
  rename_i hne
  rcases data with _ | ⟨a, l⟩
  · simp at hne
  · simp

/-- `ByteStream.read_string`: decodes the NUL-terminated string at `pos` as
Latin-1, and seeks to `pos + len(result)` (the Python code does
`pos += len(result); seek(pos)`).  Returns the string and the new position. -/
def readString (bytes : List Nat) (pos : Nat) : String × Nat :=
  let s := latin1Str (readStringLoop (bytes.drop pos))
  (s, pos + s.length)

/-! ## Dex magic and header validation (`parsing.py`) -/

/-- `DexParser.DexMagic`: the four byte groups read by its `__init__`
(`read_bytes(3)`, `read_byte`, `read_bytes(3)`, `read_byte`). -/
structure DexMagic where
  dex : List Nat
  newline : Nat
  version : List Nat
  zero : Nat
deriving Repr, DecidableEq

/-- `DexParser.DexMagic.validate`. -/
def DexMagic.validate (m : DexMagic) : Bool :=
  m.dex == [0x64, 0x65, 0x78] && m.newline == 0x0A &&
  m.version == [0x30, 0x33, 0x35] && m.zero == 0x00

/-- Reading a `DexMagic` from the first 8 bytes of a dex file. -/
def dexMagicOfBytes (b : List Nat) : DexMagic :=
  { dex := b.take 3
    newline := b.getD 3 0
    version := (b.drop 4).take 3
    zero := b.getD 7 0 }

/-- `DexParser.Header.validate`, given the 8 magic bytes and the endian tag
read from the header (`read_ints` uses signed 32-bit ints, hence `Int`).
Raises `FormatException` on magic or endian mismatch. -/
def headerValidate (magicBytes : List Nat) (endianTag : Int) : Except String Unit :=
  if !(dexMagicOfBytes magicBytes).validate then
    .error "FormatException: Invalid dex magic in dex file"
  else if endianTag ≠ 0x12345678 then
    .error "FormatException: Invalid endian-ness/tag in dex file"
  else .ok ()

/-! ## Descriptor to dotted name (`DexParser._descriptor2name`) -/

/-- `DexParser._descriptor2name`: `name[1:-1].replace('/', '.')`. -/
def descriptor2name (s : String) : String :=
  String.mk (((s.data.drop 1).dropLast).map (fun c => if c = '/' then '.' else c))

/-! ## Encoded values (`DexParser.EncodedValue` and friends) -/

/-- Result of decoding a `DexParser.EncodedValue` (the Python `self._value`).
Floats and doubles keep their raw payload bytes (IEEE interpretation is not
modelled); `vBytes` covers the `VALUE_NULL` branch (`bytes([])`) and the
final `else` branch (`read_bytes(value_arg + 1)`). -/
inductive EVValue where
  | vByte (v : Nat)
  | vShort (v : Int)
  | vInt (v : Int)
  | vLong (v : Int)
  | vChar (c : Char)
  | vEnum (v : Nat)
  | vFloat (raw : List Nat)
  | vDouble (raw : List Nat)
  | vString (s : String)
  | vArray (vs : List EVValue)
  | vAnnot (typeIndex : Nat) (elements : List (Nat × EVValue))
  | vBool (b : Bool)
  | vBytes (bs : List Nat)
deriving Repr

/-- Little-endian accumulation of a byte list (first byte least significant),
as in the `VALUE_ENUM` branch (`self._value += base << index*8`). -/
def leAccum (bs : List Nat) : Nat :=
  bs.foldr (fun b acc => b + 256 * acc) 0

/-- Read exactly `n` bytes (`struct.unpack` raises on a short read). -/
def readExact (n : Nat) (bytes : List Nat) : Except String (List Nat × List Nat) :=
  if bytes.length < n then .error "short read"
  else .ok (bytes.take n, bytes.drop n)

/-- Read an `n`-byte little-endian signed integer (`read_short`, `read_int`,
`read_long_long`). -/
def readSigned (n : Nat) (bytes : List Nat) : Except String (Int × List Nat) := do
  let (bs, rest) ← readExact n bytes
  let raw := leAccum bs
  .ok (if raw < 2 ^ (8 * n - 1) then (raw : Int) else (raw : Int) - 2 ^ (8 * n), rest)

/-- The sixteen `VALUE_*` constants gathered by the reflective check
`value_type not in [getattr(self, name) ...]` in `EncodedValue.__init__`. -/
def validValueTypes : List Nat :=
  [0x00, 0x02, 0x03, 0x04, 0x06, 0x10, 0x11, 0x17,
   0x18, 0x19, 0x1A, 0x1B, 0x1C, 0x1D, 0x1E, 0x1F]

mutual

/-- `DexParser.EncodedValue.__init__`: one header byte split into
`value_arg = header >> 5` and `value_type = header & 0x1F`, then the branch
chain in source order.  `fuel` only bounds the nesting depth of the mutual
recursion with arrays and annotations; the top-level wrapper supplies enough.

In the `VALUE_BOOLEAN` branch the source computes
`bytestream.read_bytes(value_arg) != 0`: it consumes `value_arg` payload
bytes, and in Python a `bytes` object compared to the integer `0` with `!=`
is always `True`, whatever the bytes are — so the decoded value is the
constant `true`. -/
def evDecode (fuel : Nat) (bytes : List Nat) : Except String (EVValue × List Nat) :=
  match fuel, bytes with
  | 0, _ => .error "out of fuel"
  | _ + 1, [] => .error "EOF"
  | fuel + 1, argAndType :: rest =>
    let valueArg := argAndType >>> 5
    let valueType := argAndType &&& 0x1F
    if valueType ∉ validValueTypes then .error "Value type invalid"
    else if valueType = 0x00 ∧ valueArg + 1 = 1 then
      match rest with
      | [] => .error "EOF"
      | b :: r => .ok (.vByte b, r)
    else if valueType = 0x02 ∧ valueArg + 1 = 2 then do
      let (v, r) ← readSigned 2 rest
      .ok (.vShort v, r)
    else if valueType = 0x04 ∧ valueArg + 1 = 4 then do
      let (v, r) ← readSigned 4 rest
      .ok (.vInt v, r)
    else if valueType = 0x06 ∧ valueArg + 1 = 8 then do
      let (v, r) ← readSigned 8 rest
      .ok (.vLong v, r)
    else if valueType = 0x03 ∧ valueArg + 1 = 1 then
      match rest with
      | [] => .error "EOF"
      | b :: r => .ok (.vChar (Char.ofNat b), r)
    else if valueType = 0x1B then
      .ok (.vEnum (leAccum (rest.take (valueArg + 1))), rest.drop (valueArg + 1))
    else if valueType = 0x10 ∧ valueArg + 1 = 4 then do
      let (bs, r) ← readExact 4 rest
      .ok (.vFloat bs, r)
    else if valueType = 0x11 ∧ valueArg + 1 = 8 then do
      let (bs, r) ← readExact 8 rest
      .ok (.vDouble bs, r)
    else if valueType = 0x17 then do
      let (bs, r) ← readExact (valueArg + 1) rest
      .ok (.vString (latin1Str bs), r)
    else if valueType = 0x1C then do
      let (size, r) ← readLeb128 rest
      let (vs, r2) ← evListDecode fuel size r
      .ok (.vArray vs, r2)
    else if valueType = 0x1D then do
      let (typeIndex, r) ← readLeb128 rest
      let (size, r2) ← readLeb128 r
      let (els, r3) ← elListDecode fuel size r2
      .ok (.vAnnot typeIndex els, r3)
    else if valueType = 0x1E then
      .ok (.vBytes [], rest)
    else if valueType = 0x1F then
      .ok (.vBool true, rest.drop valueArg)
    else
      .ok (.vBytes (rest.take (valueArg + 1)), rest.drop (valueArg + 1))
termination_by (fuel, 0)

/-- `parse_items(size, None, DexParser.EncodedValue)` inside `EncodedArray`. -/
def evListDecode (fuel count : Nat) (bytes : List Nat) :
    Except String (List EVValue × List Nat) :=
  match count with
  | 0 => .ok ([], bytes)
  | n + 1 => do
    let (v, r) ← evDecode fuel bytes
    let (vs, r2) ← evListDecode fuel n r
    .ok (v :: vs, r2)
termination_by (fuel, count + 1)

/-- The `AnnotationElement` list inside `EncodedAnnotation`: each element is a
LEB128 `name_index` followed by an `EncodedValue`. -/
def elListDecode (fuel count : Nat) (bytes : List Nat) :
    Except String (List (Nat × EVValue) × List Nat) :=
  match count with
  | 0 => .ok ([], bytes)
  | n + 1 => do
    let (nameIndex, r) ← readLeb128 bytes
    let (v, r2) ← evDecode fuel r
    let (es, r3) ← elListDecode fuel n r2
    .ok ((nameIndex, v) :: es, r3)
termination_by (fuel, count + 1)

end

/-- Decode one `EncodedValue` from the given bytes.  Nesting depth is bounded
by the byte count, so this fuel never runs out on decodable input. -/
def encodedValue (bytes : List Nat) : Except String (EVValue × List Nat) :=
  evDecode (bytes.length + 1) bytes

/-! ## Test resolver (`DexParser.find_junit3_tests` / `find_junit4_tests`)

Pool lookups (type ids, string ids, method ids) are abstracted into
already-resolved strings: a `ClassDef` carries its own descriptor, the
descriptor of its superclass (`none` when `super_class_index < 0`), and, for
the annotation directory reached through its `annotations_offset`, one record
per entry of `method_annotations` holding the resolved method name and the
descriptors of the `AnnotationItem`s in the `AnnotationSetItem` at that
entry's `annotations_offset`. -/

/-- One entry of `AnnotationsDirectoryItem.method_annotations`. -/
structure MethodAnnot where
  methodName : String
  annotationsOffset : Nat
  annotationDescriptors : List String
deriving Repr, DecidableEq

/-- A `DexParser.ClassDefItem` with its pool lookups resolved. -/
structure ClassDef where
  descriptor : String
  superDescriptor : Option String
  annotationsOffset : Nat
  methodAnnotations : List MethodAnnot
  virtualMethodNames : List String
deriving Repr, DecidableEq

/-- A `DexParser` instance: its class-def table and its `_package_filters`. -/
structure DexModel where
  classes : List ClassDef
  packageFilters : List String
deriving Repr, DecidableEq

/-- `ClassDefItem.has_direct_super_class`: `False` when
`super_class_index < 0`, otherwise membership of the super descriptor. -/
def hasDirectSuperClass (c : ClassDef) (descriptors : List String) : Bool :=
  match c.superDescriptor with
  | none => false
  | some d => descriptors.contains d

/-- `DexParser.find_classes_directly_inherited_from`: the matching classes are
selected against a snapshot (`fixed_set`) of the incoming list, and the loop
appends each matched class's own descriptor to the caller-supplied list.  The
mutated list is returned as the second component. -/
def findClassesDirectlyInheritedFrom (classes : List ClassDef)
    (descriptors : List String) : List ClassDef × List String :=
  let matching := classes.filter (fun c => hasDirectSuperClass c descriptors)
  (matching, descriptors ++ matching.map ClassDef.descriptor)

/-- The JUnit3 package-filter test (`find_junit3_tests` line
`if self._package_filters and all([dot_sep_name not in f for f in
self._package_filters]): continue`): the class is kept unless that
condition holds. -/
def junit3Admits (filters : List String) (dotName : String) : Bool :=
  !(!filters.isEmpty && filters.all (fun f => !pyInStr dotName f))

/-- The JUnit4 package-filter test (`find_junit4_tests` line
`if self._package_filters and all([f not in dot_sep_name for f in
self._package_filters]): continue`). -/
def junit4Admits (filters : List String) (dotName : String) : Bool :=
  !(!filters.isEmpty && filters.all (fun f => !pyInStr f dotName))

/-- The admission predicate exactly as the specification words it: the class's
dot-separated name is admitted iff at least one filter string contains the
class name as a substring. -/
def specAdmits (filters : List String) (dotName : String) : Bool :=
  filters.any (fun f => pyInStr dotName f)

/-- `AnnotationsDirectoryItem.get_methods_with_annotation`: skip entries whose
`annotations_offset` is 0; a method is collected when some `AnnotationItem` of
its annotation set has the target descriptor (the `break` makes one append per
matching entry). -/
def getMethodsAnnotatedBy (target : String)
    (anns : List MethodAnnot) : List String :=
  (anns.filter (fun a =>
    a.annotationsOffset != 0 && a.annotationDescriptors.contains target)).map
    MethodAnnot.methodName

/-- `DexParser.find_junit3_tests`, with the caller-supplied (and mutated)
`descriptors` list made explicit: returns the collected method names and the
final contents of that list. -/
def findJunit3Tests (m : DexModel) (descriptors : List String) :
    List String × List String :=
  let res := findClassesDirectlyInheritedFrom m.classes descriptors
  let methodNames := res.1.flatMap (fun c =>
    if junit3Admits m.packageFilters (descriptor2name c.descriptor) then
      c.virtualMethodNames.filter (fun name => name.startsWith "test")
    else [])
  (methodNames, res.2)

/-- The body of the `find_junit4_tests` loop for one class def (already known
to have `annotations_offset != 0`). -/
def junit4ClassResults (filters : List String) (c : ClassDef) : List String :=
  let dotSepName := descriptor2name c.descriptor
  if junit4Admits filters dotSepName then
    let names := getMethodsAnnotatedBy "Lorg/junit/Test;" c.methodAnnotations
    let ignoredNames := getMethodsAnnotatedBy "Lorg/junit/Ignore;" c.methodAnnotations
    (names.filter (fun n => !ignoredNames.contains n)).map
      (fun n => dotSepName ++ "#" ++ n)
  else []

/-- `DexParser.find_junit4_tests` (result as a list; the Python `set` result
is captured through membership statements). -/
def findJunit4Tests (m : DexModel) : List String :=
  (m.classes.filter (fun c => c.annotationsOffset != 0)).flatMap
    (junit4ClassResults m.packageFilters)

/-! ## AXML string items and manifest semantics (`AXMLParser`) -/

/-- Python's `file.read(n)` for a possibly negative `n`: a negative count
reads to end-of-file (`read_bytes` forwards its argument unchecked). -/
def pyRead (data : List Nat) (n : Int) : List Nat :=
  if n < 0 then data else data.take n.toNat

/-- `ByteStream.read_short`: two bytes as a little-endian *signed* 16-bit
value (struct format `"<h"`). -/
def pyReadSigned16 (b0 b1 : Nat) : Int :=
  let raw := b0 + 256 * b1
  if raw < 32768 then (raw : Int) else (raw : Int) - 65536

/-- `AXMLParser.StringItem.__init__`, reduced to the branch decision and the
payload handed to the codec: reads a signed 16-bit length; when
`int(length/256) == length % 256` (Python `int()` truncates toward zero and
`%` returns a non-negative remainder) the length is re-set to `length % 256`
and that many bytes go to the UTF-8 codec, otherwise `length*2` bytes go to
the UTF-16 codec.  Returns `(isUtf8, payload)`. -/
def axmlStringItem : List Nat → Except String (Bool × List Nat)
  | b0 :: b1 :: rest =>
    let len : Int := pyReadSigned16 b0 b1
    if Int.tdiv len 256 = Int.emod len 256 then
      .ok (true, pyRead rest (Int.emod len 256))
    else
      .ok (false, pyRead rest (len * 2))
  | _ => .error "short read"

/-- An AXML attribute with its name and value already resolved through the
string pool (`XMLAttr.name` / `XMLAttr.value` are both strings). -/
structure XMLAttrM where
  name : String
  value : String
deriving Repr, DecidableEq

/-- An `AXMLParser.XMLTag` after tree construction. -/
inductive XMLTagM where
  | node (name : String) (attributes : List XMLAttrM) (children : List XMLTagM)
deriving Repr

/-- Element name of a tag. -/
def XMLTagM.name : XMLTagM → String
  | .node n _ _ => n

/-- Attributes of a tag. -/
def XMLTagM.attributes : XMLTagM → List XMLAttrM
  | .node _ a _ => a

/-- Children of a tag. -/
def XMLTagM.children : XMLTagM → List XMLTagM
  | .node _ _ c => c

/-- The Python dict comprehension `{attr.name: attr.value for attr in
child.attributes}` followed by `.get(key)`: the last attribute with the given
name wins. -/
def attrGet (attrs : List XMLAttrM) (key : String) : Option String :=
  ((attrs.filter (fun a => a.name == key)).map XMLAttrM.value).getLast?

/-- The Python expression `attrs_dict.get("functionalTest") in ["true", True]`:
attribute values are strings (`XMLAttr.value` is `str(...)`) and a missing key
gives `None`, so this is `True` exactly when the value is the string
`"true"`. -/
def pyInTrueList (v : Option String) : Bool :=
  v == some "true"

/-- The Python expression `attrs_dict.get("handleProfiling") == ["true", True]`
(note `==`, not `in`): a string or `None` is never equal to a list, so this is
always `False`. -/
def pyEqTrueList (_v : Option String) : Bool :=
  false

/-- `AXMLParser.Instrumentation` as built in `_process_tags`. -/
structure InstrumentationM where
  runner : Option String
  functional_test : Bool
  handle_profiling : Bool
  label : Option String
  target_package : Option String
deriving Repr, DecidableEq

/-- The `instrumentation` arm of the `_process_tags` child loop for one
`instrumentation` child. -/
def mkInstrumentation (child : XMLTagM) : InstrumentationM :=
  let ad := child.attributes
  { runner := attrGet ad "name"
    functional_test := pyInTrueList (attrGet ad "functionalTest")
    handle_profiling := pyEqTrueList (attrGet ad "handleProfiling")
    label := attrGet ad "label"
    target_package := attrGet ad "targetPackage" }

/-- The instrumentation part of `AXMLParser._process_tags`: `None` unless the
root element is named `manifest`; each `instrumentation` child overwrites
`self._instrumentation`, so the last one wins. -/
def processTagsInstrumentation (root : XMLTagM) : Option InstrumentationM :=
  if root.name ≠ "manifest" then none
  else ((root.children.filter (fun c => c.name == "instrumentation")).map
    mkInstrumentation).getLast?

/-- A one-class dex model used as a concrete instance for the JUnit4
discovery theorems. -/
def junit4DemoModel : DexModel :=
  { classes := [{ descriptor := "La/b/C;", superDescriptor := none,
                  annotationsOffset := 1,
                  methodAnnotations := [⟨"m", 1, ["Lorg/junit/Test;"]⟩],
                  virtualMethodNames := [] }],
    packageFilters := [] }

/-- A parser model whose only class `La/B;` extends the seeded `Lx/TC;`. -/
def junit3DemoA : DexModel :=
  { classes := [{ descriptor := "La/B;", superDescriptor := some "Lx/TC;",
                  annotationsOffset := 0, methodAnnotations := [],
                  virtualMethodNames := ["testFoo"] }],
    packageFilters := [] }

/-- A class `La/C;` whose superclass `La/B;` is only discovered by a prior
`find_junit3_tests` call on `junit3DemoA`. -/
def junit3DemoClass : ClassDef :=
  { descriptor := "La/C;", superDescriptor := some "La/B;",
    annotationsOffset := 0, methodAnnotations := [],
    virtualMethodNames := [] }

/-- A second parser model containing `junit3DemoClass`. -/
def junit3DemoB : DexModel :=
  { classes := [junit3DemoClass], packageFilters := [] }

/-! ## Theorems -/

/-- C6: `read_leb128` returns any single byte `0x00…0x7F` as itself, decodes
`0x80 0x01` to 128, and fails (the source raises `Exception("LEB128 sequence
invalid")`, the spec's `MalformedInput`) on five bytes that all have the
continuation bit set. -/
theorem readLeb128_spec (b : Nat) (hb : b ≤ 0x7F)
    (b0 b1 b2 b3 b4 : Nat)
    (h0 : b0 &&& 0x80 ≠ 0) (h1 : b1 &&& 0x80 ≠ 0) (h2 : b2 &&& 0x80 ≠ 0)
    (h3 : b3 &&& 0x80 ≠ 0) (h4 : b4 &&& 0x80 ≠ 0) :
    readLeb128 [b] = .ok (b, []) ∧
    readLeb128 [0x80, 0x01] = .ok (128, []) ∧
    readLeb128 [b0, b1, b2, b3, b4] = .error "LEB128 sequence invalid" := by
  refine ⟨?_, by decide, ?_⟩
  · interval_cases b <;> rfl
  · simp [readLeb128, readLeb128Loop, h0, h1, h2, h3, h4]

/-- Witness for `readLeb128_spec` at `b = 5` and five `0x80` bytes. -/
theorem readLeb128_spec_witness :
    (5 : Nat) ≤ 0x7F ∧
    (readLeb128 [5] = .ok (5, []) ∧
     readLeb128 [0x80, 0x01] = .ok (128, []) ∧
     readLeb128 [0x80, 0x80, 0x80, 0x80, 0x80] = .error "LEB128 sequence invalid") :=
  ⟨by decide,
   readLeb128_spec 5 (by decide) 0x80 0x80 0x80 0x80 0x80
     (by decide) (by decide) (by decide) (by decide) (by decide)⟩

/-- C2: in the `VALUE_BOOLEAN` branch (`value_type = 0x1F`) the code consumes
`value_arg` payload bytes — not zero — and the decoded value is always `true`,
since Python's `read_bytes(value_arg) != 0` compares a `bytes` object with an
integer.  At header `0x1F` (`value_arg = 0`) the claim's value `arg != 0` is
`false`, yet the code decodes `true`; at header `0x3F` (`value_arg = 1`) the
code consumes the `0x07` payload byte the claim says is not consumed. -/
theorem encodedValue_boolean_eval :
    encodedValue [0x1F] = .ok (.vBool true, []) ∧
    encodedValue [0x3F, 0x07] = .ok (.vBool true, []) := by
  constructor <;> simp +decide [encodedValue, evDecode, validValueTypes]

/-- C8 counterexample: `"LList;"` (a class named `List` in the default
package) has the class-descriptor form `'L' + body + ';'`, yet
`_descriptor2name` maps it to `"List"`, which begins with `'L'`. -/
theorem descriptor2name_counterexample :
    "LList;" = "L" ++ "List" ++ ";" ∧
    descriptor2name "LList;" = "List" ∧
    ("List".data.head? = some 'L') := by
  refine ⟨rfl, ?_, rfl⟩
  decide

/-- C8 amended: for a descriptor `'L' + body + ';'` whose body contains no
`';'` and does not itself begin with `'L'`, the result of `_descriptor2name`
begins with neither `'L'` nor `'/'` and contains no `';'` (the `'/'` and `';'`
parts need only the body restrictions; a body beginning with `'L'` survives
the strip, as the counterexample shows). -/
theorem descriptor2name_amended (body : List Char)
    (hL : body.head? ≠ some 'L') (hsemi : ';' ∉ body) :
    (descriptor2name (String.mk ('L' :: body ++ [';']))).data.head? ≠ some 'L' ∧
    (descriptor2name (String.mk ('L' :: body ++ [';']))).data.head? ≠ some '/' ∧
    ';' ∉ (descriptor2name (String.mk ('L' :: body ++ [';']))).data := by
  have hdata : (descriptor2name (String.mk ('L' :: body ++ [';']))).data
      = body.map (fun c => if c = '/' then '.' else c) := by
    simp [descriptor2name, List.dropLast_concat]
  rw [hdata]
  refine ⟨?_, ?_, ?_⟩
  · rcases body with _ | ⟨c, t⟩
    · simp
    · simp only [List.map_cons, List.head?_cons]
      intro hc
      have heq : (if c = '/' then '.' else c) = 'L' := Option.some.inj hc
      by_cases hs : c = '/'
      · rw [if_pos hs] at heq
        exact absurd heq (by decide)
      · rw [if_neg hs] at heq
        exact hL (by simp [heq])
  · rcases body with _ | ⟨c, t⟩
    · simp
    · simp only [List.map_cons, List.head?_cons]
      intro hc
      have heq : (if c = '/' then '.' else c) = '/' := Option.some.inj hc
      by_cases hs : c = '/'
      · rw [if_pos hs] at heq
        exact absurd heq (by decide)
      · rw [if_neg hs] at heq
        exact hs heq
  · intro hmem
    rcases List.mem_map.mp hmem with ⟨x, hxmem, hx⟩
    by_cases hs : x = '/'
    · rw [if_pos hs] at hx
      exact absurd hx (by decide)
    · rw [if_neg hs] at hx
      exact hsemi (hx ▸ hxmem)

/-- Witness for `descriptor2name_amended` at body `"java/lang/Object"`. -/
theorem descriptor2name_amended_witness :
    ("java/lang/Object".data.head? ≠ some 'L' ∧ ';' ∉ "java/lang/Object".data) ∧
    ((descriptor2name (String.mk ('L' :: "java/lang/Object".data ++ [';']))).data.head? ≠ some 'L' ∧
     (descriptor2name (String.mk ('L' :: "java/lang/Object".data ++ [';']))).data.head? ≠ some '/' ∧
     ';' ∉ (descriptor2name (String.mk ('L' :: "java/lang/Object".data ++ [';']))).data) :=
  ⟨by decide, descriptor2name_amended "java/lang/Object".data (by decide) (by decide)⟩

/-- C7: header validation succeeds exactly when the 8 magic bytes are
`'d','e','x',0x0A,'0','3','5',0x00` and the endian tag is `0x12345678`; any
other magic (for example version bytes `'036'`) or endian tag yields a
`FormatException` error. -/
theorem headerValidate_ok_iff (b : List Nat) (endianTag : Int)
    (hlen : b.length = 8) :
    headerValidate b endianTag = .ok () ↔
      (b = [0x64, 0x65, 0x78, 0x0A, 0x30, 0x33, 0x35, 0x00] ∧
       endianTag = 0x12345678) := by
  match b, hlen with
  | [a0, a1, a2, a3, a4, a5, a6, a7], _ =>
    have hv : (dexMagicOfBytes [a0, a1, a2, a3, a4, a5, a6, a7]).validate = true ↔
        ([a0, a1, a2, a3, a4, a5, a6, a7] : List Nat) =
          [0x64, 0x65, 0x78, 0x0A, 0x30, 0x33, 0x35, 0x00] := by
      simp [dexMagicOfBytes, DexMagic.validate, List.getD]
      tauto
    constructor
    · intro h
      rw [headerValidate] at h
      split_ifs at h with h1 h2
      all_goals simp at h
      exact ⟨hv.mp (by simpa using h1), by simpa using h2⟩
    · rintro ⟨hb, he⟩
      have hm : (dexMagicOfBytes [a0, a1, a2, a3, a4, a5, a6, a7]).validate = true :=
        hv.mpr hb
      simp [headerValidate, hm, he]

/-- Witness for `headerValidate_ok_iff` at the valid header. -/
theorem headerValidate_ok_iff_witness :
    ([0x64, 0x65, 0x78, 0x0A, 0x30, 0x33, 0x35, 0x00] : List Nat).length = 8 ∧
    (headerValidate [0x64, 0x65, 0x78, 0x0A, 0x30, 0x33, 0x35, 0x00] 0x12345678 = .ok () ↔
      (([0x64, 0x65, 0x78, 0x0A, 0x30, 0x33, 0x35, 0x00] : List Nat) =
        [0x64, 0x65, 0x78, 0x0A, 0x30, 0x33, 0x35, 0x00] ∧
       (0x12345678 : Int) = 0x12345678)) :=
  ⟨by decide, headerValidate_ok_iff _ _ (by decide)⟩

/-- C3: with an `instrumentation` child whose `functionalTest` and
`handleProfiling` attributes are both the literal string `"true"`, the decoded
record has `functional_test = true` but `handle_profiling = false`: the source
computes `attrs_dict.get("handleProfiling") == ["true", True]`, comparing a
string against a two-element list, which is never `True`. -/
theorem processTags_handleProfiling_eval :
    processTagsInstrumentation
      (.node "manifest" []
        [.node "instrumentation"
          [⟨"functionalTest", "true"⟩, ⟨"handleProfiling", "true"⟩] []]) =
      some { runner := none, functional_test := true, handle_profiling := false,
             label := none, target_package := none } := by
  decide

/-- A `takeWhile` result with the same length as the input list is the whole
list. -/
theorem takeWhile_length_eq {α : Type} (p : α → Bool) (l : List α)
    (h : (l.takeWhile p).length = l.length) : l.takeWhile p = l := by
  induction l with
  | nil => rfl
  | cons a t ih =>
    by_cases hp : p a
    · simp only [List.takeWhile_cons, hp, if_true, List.length_cons] at h ⊢
      rw [ih (by omega)]
    · exfalso
      simp [List.takeWhile_cons, hp] at h

/-- The chunked loop of `read_string` collects exactly the bytes before the
first NUL (all bytes when there is none). -/
theorem readStringLoop_eq (data : List Nat) :
    readStringLoop data = data.takeWhile (fun b => b ≠ 0) := by
  induction data using readStringLoop.induct with
  | case1 x hx =>
    have hxnil : x = [] := by
      rcases x with _ | ⟨a, t⟩
      · rfl
      · simp at hx
    subst hxnil
    rw [readStringLoop]
    simp
  | case2 x hne delta hcond ih =>
    rw [readStringLoop, if_neg hne]
    simp only [if_pos hcond]
    rw [ih]
    conv_rhs => rw [← List.take_append_drop 128 x, List.takeWhile_append]
    rw [if_pos (hcond.2.trans hcond.1.symm)]
    have hdc : (List.take 128 x).takeWhile (fun b => b ≠ 0) = List.take 128 x :=
      takeWhile_length_eq _ _ (hcond.2.trans hcond.1.symm)
    rw [hdc]
  | case3 x hne delta hcond =>
    rw [readStringLoop, if_neg hne]
    simp only [if_neg hcond]
    conv_rhs => rw [← List.take_append_drop 128 x, List.takeWhile_append]
    by_cases hlen : ((List.take 128 x).takeWhile (fun b => b ≠ 0)).length =
        (List.take 128 x).length
    · rw [if_pos hlen]
      have hdc : (List.take 128 x).takeWhile (fun b => b ≠ 0) = List.take 128 x :=
        takeWhile_length_eq _ _ hlen
      have hchunklen : (List.take 128 x).length ≠ 128 := by
        intro hc
        exact hcond ⟨hc, by rw [hlen, hc]⟩
      have hxlen : x.length < 128 := by
        simp only [List.length_take] at hchunklen
        omega
      rw [List.drop_eq_nil_of_le (le_of_lt hxlen)]
      simp [hdc]
      intro y hy
      simpa using List.takeWhile_eq_self_iff.mp hdc y hy
    · rw [if_neg hlen]

/-- A `dropWhile (· ≠ 0)` of a list containing 0 starts with 0. -/
theorem head_dropWhile_nonzero (l : List Nat) (h : 0 ∈ l) :
    (l.dropWhile (fun b => b ≠ 0)).head? = some 0 := by
  induction l with
  | nil => cases h
  | cons a t ih =>
    by_cases ha : a = 0
    · subst ha
      simp [List.dropWhile_cons]
    · have hmem : 0 ∈ t := by
        rcases List.mem_cons.mp h with h0 | h0
        · exact absurd h0.symm ha
        · exact h0
      simp only [List.dropWhile_cons]
      rw [if_pos (by simpa using ha)]
      exact ih hmem

/-- Dropping as many elements as `takeWhile` keeps leaves `dropWhile`. -/
theorem drop_length_takeWhile {α : Type} (p : α → Bool) (l : List α) :
    l.drop (l.takeWhile p).length = l.dropWhile p := by
  induction l with
  | nil => rfl
  | cons a t ih =>
    by_cases hp : p a <;>
      simp [List.takeWhile_cons, List.dropWhile_cons, hp, ih]

/-- C4 amended: at a position where a NUL-terminated byte sequence begins,
`read_string` returns the Latin-1 decoding of exactly the bytes preceding the
first NUL, and the position after the call is AT the terminating NUL byte
(`pos + len(result)`), not past it. -/
theorem readString_spec (bytes : List Nat) (pos : Nat)
    (h : 0 ∈ bytes.drop pos) :
    readString bytes pos =
      (latin1Str ((bytes.drop pos).takeWhile (fun b => b ≠ 0)),
       pos + ((bytes.drop pos).takeWhile (fun b => b ≠ 0)).length) ∧
    (bytes.drop (readString bytes pos).2).head? = some 0 := by
  have hlen : ∀ l : List Nat, (latin1Str l).length = l.length := by
    intro l
    simp [latin1Str]
  constructor
  · simp only [readString, readStringLoop_eq, hlen]
  · simp only [readString, readStringLoop_eq, hlen]
    rw [← List.drop_drop, drop_length_takeWhile]
    exact head_dropWhile_nonzero _ h

/-- C4 counterexample: on the stream `41 00 42`, `read_string` at position 0
returns `"A"` but leaves the position at 1 — the index of the terminating NUL
— not at 2 as the claim ("immediately past the terminating NUL") states. -/
theorem readString_counterexample :
    readString [0x41, 0x00, 0x42] 0 = ("A", 1) ∧
    (readString [0x41, 0x00, 0x42] 0).2 ≠ 2 := by
  have h : readString [0x41, 0x00, 0x42] 0 = ("A", 1) := by
    simp only [readString, readStringLoop_eq]
    decide
  exact ⟨h, by rw [h]; decide⟩

/-- Witness for `readString_spec` on the stream `41 00 42` at position 0. -/
theorem readString_spec_witness :
    (0 ∈ ([0x41, 0x00, 0x42] : List Nat).drop 0) ∧
    (readString [0x41, 0x00, 0x42] 0 =
      (latin1Str ((([0x41, 0x00, 0x42] : List Nat).drop 0).takeWhile (fun b => b ≠ 0)),
       0 + ((([0x41, 0x00, 0x42] : List Nat).drop 0).takeWhile (fun b => b ≠ 0)).length) ∧
     (([0x41, 0x00, 0x42] : List Nat).drop (readString [0x41, 0x00, 0x42] 0).2).head? = some 0) :=
  ⟨by decide, readString_spec [0x41, 0x00, 0x42] 0 (by decide)⟩

/-- C9 counterexample: the two length bytes `FF FF` give the unsigned 16-bit
length `0xFFFF`, whose high and low bytes are equal, so the claim selects the
UTF-8 branch; but the code reads the length as the *signed* short `-1`, for
which `int(-1/256) = 0 ≠ 255 = -1 % 256`, takes the UTF-16 branch, and hands
`read(-2)` — i.e. everything to end-of-file — to the UTF-16 codec. -/
theorem axmlStringItem_counterexample :
    (0xFFFF >>> 8 = 0xFFFF &&& 0xFF) ∧
    axmlStringItem [0xFF, 0xFF, 0x41] = .ok (false, [0x41]) := by
  constructor
  · decide
  · decide

/-- C9 amended: for lengths with the sign bit clear (high byte `< 0x80`), the
claim holds: equal high and low bytes select UTF-8 with the duplicated
single-byte length, otherwise `length × 2` bytes go to the UTF-16 codec. -/
theorem axmlStringItem_amended (b0 b1 : Nat) (rest : List Nat)
    (hb0 : b0 < 256) (hb1 : b1 < 128) :
    (b1 = b0 → axmlStringItem (b0 :: b1 :: rest) = .ok (true, rest.take b0)) ∧
    (b1 ≠ b0 → axmlStringItem (b0 :: b1 :: rest) =
        .ok (false, rest.take (2 * (b0 + 256 * b1)))) := by
  have hraw : b0 + 256 * b1 < 32768 := by omega
  have hsigned : pyReadSigned16 b0 b1 = ((b0 + 256 * b1 : Nat) : Int) := by
    simp [pyReadSigned16]
    omega
  have hdiv : Int.tdiv ((b0 + 256 * b1 : Nat) : Int) 256 = (((b0 + 256 * b1) / 256 : Nat) : Int) :=
    rfl
  have hmod : Int.emod ((b0 + 256 * b1 : Nat) : Int) 256 = (((b0 + 256 * b1) % 256 : Nat) : Int) :=
    rfl
  have hdivval : (b0 + 256 * b1) / 256 = b1 := by omega
  have hmodval : (b0 + 256 * b1) % 256 = b0 := by omega
  constructor
  · intro heq
    simp only [axmlStringItem, hsigned, hdiv, hmod, hdivval, hmodval, pyRead]
    rw [if_pos (show ((b1 : Nat) : Int) = ((b0 : Nat) : Int) from by exact_mod_cast heq)]
    simp
  · intro hne
    simp only [axmlStringItem, hsigned, hdiv, hmod, hdivval, hmodval, pyRead]
    rw [if_neg (show ¬((b1 : Nat) : Int) = ((b0 : Nat) : Int) from
      fun hc => hne (by exact_mod_cast hc))]
    rw [if_neg (show ¬(((b0 + 256 * b1 : Nat) : Int) * 2 < 0) by omega)]
    have ht : (((b0 + 256 * b1 : Nat) : Int) * 2).toNat = 2 * (b0 + 256 * b1) := by omega
    rw [ht]

/-- Witness for `axmlStringItem_amended` in both branches. -/
theorem axmlStringItem_amended_witness :
    ((3 : Nat) < 256 ∧ (3 : Nat) < 128 ∧ (2 : Nat) < 256 ∧ (0 : Nat) < 128) ∧
    ((3 = 3 → axmlStringItem [3, 3, 65, 66, 67, 68] =
        .ok (true, ([65, 66, 67, 68] : List Nat).take 3)) ∧
     ((0 : Nat) ≠ 2 → axmlStringItem [2, 0, 65, 66, 67, 68] =
        .ok (false, ([65, 66, 67, 68] : List Nat).take (2 * (2 + 256 * 0))))) :=
  ⟨by decide,
   (axmlStringItem_amended 3 3 [65, 66, 67, 68] (by decide) (by decide)).1,
   (axmlStringItem_amended 2 0 [65, 66, 67, 68] (by decide) (by decide)).2⟩

/-- C1 counterexample: with filter list `["Test"]` and a class whose
dot-separated name is `a.b.Test`, no filter string contains the class name as
a substring (the spec's predicate rejects, and so does the JUnit3 path), yet
`find_junit4_tests` admits the class and emits its test — the JUnit4 path
tests the opposite substring direction. -/
theorem junit4_filter_direction_counterexample :
    findJunit4Tests
      { classes := [{ descriptor := "La/b/Test;", superDescriptor := none,
                      annotationsOffset := 1,
                      methodAnnotations := [⟨"m", 1, ["Lorg/junit/Test;"]⟩],
                      virtualMethodNames := [] }],
        packageFilters := ["Test"] } = ["a.b.Test#m"] ∧
    specAdmits ["Test"] "a.b.Test" = false ∧
    junit3Admits ["Test"] "a.b.Test" = false ∧
    junit4Admits ["Test"] "a.b.Test" = true := by
  decide

/-- C1 amended: with a non-empty filter list, the JUnit3 path admits a class
iff some filter string contains the class's dot-separated name as a substring,
while the JUnit4 path admits it iff the class name contains some filter string
— the two paths use opposite substring directions. -/
theorem admits_directions (filters : List String) (dotName : String)
    (hne : filters ≠ []) :
    (junit3Admits filters dotName = true ↔
      ∃ f ∈ filters, pyInStr dotName f = true) ∧
    (junit4Admits filters dotName = true ↔
      ∃ f ∈ filters, pyInStr f dotName = true) := by
  have hni : filters.isEmpty = false := by
    rcases filters with _ | ⟨f, fs⟩
    · exact absurd rfl hne
    · rfl
  constructor <;>
    simp [junit3Admits, junit4Admits, hni, List.all_eq_true]

/-- Witness for `admits_directions` with filter `["Test"]`. -/
theorem admits_directions_witness :
    (["Test"] : List String) ≠ [] ∧
    ((junit3Admits ["Test"] "a.b.Test" = true ↔
       ∃ f ∈ (["Test"] : List String), pyInStr "a.b.Test" f = true) ∧
     (junit4Admits ["Test"] "a.b.Test" = true ↔
       ∃ f ∈ (["Test"] : List String), pyInStr f "a.b.Test" = true)) :=
  ⟨by decide, admits_directions ["Test"] "a.b.Test" (by decide)⟩

/-- C5: with an empty package filter, `find_junit4_tests` contains a string
`s` iff some class def with non-zero `annotations_offset` has an annotated
method in its `Lorg/junit/Test;` set but not in its `Lorg/junit/Ignore;` set,
with `s = "<dot.separated.class>#<method_name>"`; in particular the result
never contains a method of the Ignore set of its contributing class. -/
theorem findJunit4Tests_mem_iff (m : DexModel) (hf : m.packageFilters = [])
    (s : String) :
    s ∈ findJunit4Tests m ↔
      ∃ c ∈ m.classes, c.annotationsOffset ≠ 0 ∧
        ∃ n, n ∈ getMethodsAnnotatedBy "Lorg/junit/Test;" c.methodAnnotations ∧
          n ∉ getMethodsAnnotatedBy "Lorg/junit/Ignore;" c.methodAnnotations ∧
          s = descriptor2name c.descriptor ++ "#" ++ n := by
  simp only [findJunit4Tests, junit4ClassResults, hf, junit4Admits, List.isEmpty_nil,
    Bool.not_true, Bool.false_and, Bool.not_false, if_true, List.mem_flatMap,
    List.mem_filter, List.mem_map]
  constructor
  · rintro ⟨c, ⟨hc, hoff⟩, n, ⟨hntest, hnign⟩, hns⟩
    refine ⟨c, hc, by simpa using hoff, n, hntest, ?_, hns.symm⟩
    intro hmemx
    simp [List.contains, List.elem_iff] at hnign
    exact hnign hmemx
  · rintro ⟨c, hc, hoff, n, hntest, hnign, hs⟩
    refine ⟨c, ⟨hc, by simpa using hoff⟩, n, ⟨hntest, ?_⟩, hs.symm⟩
    simp [List.contains, List.elem_iff]
    exact hnign

/-- Witness for `findJunit4Tests_mem_iff` on `junit4DemoModel`. -/
theorem findJunit4Tests_mem_iff_witness :
    junit4DemoModel.packageFilters = [] ∧
    (("a.b.C#m" : String) ∈ findJunit4Tests junit4DemoModel ↔
      ∃ c ∈ junit4DemoModel.classes, c.annotationsOffset ≠ 0 ∧
        ∃ n, n ∈ getMethodsAnnotatedBy "Lorg/junit/Test;" c.methodAnnotations ∧
          n ∉ getMethodsAnnotatedBy "Lorg/junit/Ignore;" c.methodAnnotations ∧
          "a.b.C#m" = descriptor2name c.descriptor ++ "#" ++ n) :=
  ⟨rfl, findJunit4Tests_mem_iff junit4DemoModel rfl "a.b.C#m"⟩

/-- C10: calling `find_junit3_tests` mutates the caller-supplied `descriptors`
list by appending the descriptor of each matched class (one entry per matched
class); since the default argument list is a single shared object, any later
call using the default — on this or another `DexParser` — is seeded with the
grown list, and so matches any class whose superclass descriptor was
discovered by the earlier call. -/
theorem findJunit3Tests_descriptor_accumulation (A B : DexModel)
    (state : List String) (c : ClassDef) (hc : c ∈ B.classes) (d : String)
    (hd : c.superDescriptor = some d)
    (hmem : d ∈ (findClassesDirectlyInheritedFrom A.classes state).1.map
      ClassDef.descriptor) :
    (findJunit3Tests A state).2 =
        state ++ (findClassesDirectlyInheritedFrom A.classes state).1.map
          ClassDef.descriptor ∧
    (findJunit3Tests A state).2.length =
        state.length +
          (findClassesDirectlyInheritedFrom A.classes state).1.length ∧
    c ∈ (findClassesDirectlyInheritedFrom B.classes
          (findJunit3Tests A state).2).1 := by
  refine ⟨rfl, by simp [findJunit3Tests, findClassesDirectlyInheritedFrom], ?_⟩
  show c ∈ List.filter
    (fun x => hasDirectSuperClass x ((findJunit3Tests A state).2)) B.classes
  refine List.mem_filter.mpr ⟨hc, ?_⟩
  have hseed : d ∈ state ++ (findClassesDirectlyInheritedFrom A.classes
      state).1.map ClassDef.descriptor :=
    List.mem_append.mpr (Or.inr hmem)
  simp only [hasDirectSuperClass, hd]
  rw [show (findJunit3Tests A state).2 =
    state ++ (findClassesDirectlyInheritedFrom A.classes state).1.map
      ClassDef.descriptor from rfl]
  simpa [List.contains, List.elem_iff] using hseed

/-- Witness for `findJunit3Tests_descriptor_accumulation`: parser
`junit3DemoA` discovers `La/B;`, and a later default-argument call for parser
`junit3DemoB` then matches `junit3DemoClass`, whose superclass is `La/B;`. -/
theorem findJunit3Tests_descriptor_accumulation_witness :
    (junit3DemoClass ∈ junit3DemoB.classes ∧
     junit3DemoClass.superDescriptor = some "La/B;" ∧
     "La/B;" ∈ (findClassesDirectlyInheritedFrom junit3DemoA.classes
        ["Lx/TC;"]).1.map ClassDef.descriptor) ∧
    ((findJunit3Tests junit3DemoA ["Lx/TC;"]).2 =
        ["Lx/TC;"] ++ (findClassesDirectlyInheritedFrom junit3DemoA.classes
          ["Lx/TC;"]).1.map ClassDef.descriptor ∧
     (findJunit3Tests junit3DemoA ["Lx/TC;"]).2.length =
        (["Lx/TC;"] : List String).length +
          (findClassesDirectlyInheritedFrom junit3DemoA.classes
            ["Lx/TC;"]).1.length ∧
     junit3DemoClass ∈ (findClassesDirectlyInheritedFrom junit3DemoB.classes
          (findJunit3Tests junit3DemoA ["Lx/TC;"]).2).1) :=
  ⟨⟨by decide, rfl, by decide⟩,
   findJunit3Tests_descriptor_accumulation junit3DemoA junit3DemoB
     ["Lx/TC;"] junit3DemoClass (by decide) "La/B;" rfl (by decide)⟩
